import Mathlib

/-!
Verification of the tax calculation core of the revolut-stocks repository.

The repository's driver (`stocks.py`) is embedded directly.  The modules it
imports from `libs/` (calculations, exchange rates, utils) are not part of the
excerpted source, so the engine they contain is modelled from the
specification, as marked on each definition.

Monetary amounts and quantities are rational numbers (the source uses
arbitrary-precision decimals); dates are natural numbers (day index);
currencies and security identifiers are strings.
-/

/-- Activity types of a brokerage statement line.  The recognized set is
BUY, SELL, DIVIDEND, DIVIDEND_TAX, FEE; every other type carries its raw
tag and is unsupported. -/
inductive ActivityType where
  | buy
  | sell
  | dividend
  | dividendTax
  | fee
  | other (tag : String)
deriving DecidableEq, Repr

/-- One line of brokerage history (spec section 3, ActivityRecord). -/
structure Activity where
  activityType : ActivityType
  securityId : String
  tradeDate : Nat
  quantity : ℚ
  unitPrice : ℚ
  currency : String
  grossAmount : Option ℚ := none
  taxAmount : Option ℚ := none
deriving DecidableEq, Repr

/-- An exchange-rate lookup: (currency, date) to rate into the reporting
currency.  The pipeline populates it before the engine runs (C6), so the
engine sees a total lookup. -/
def Rates : Type := String → Nat → ℚ

/-- An open acquisition lot (spec section 3, Lot). -/
structure Lot where
  securityId : String
  acquisitionDate : Nat
  remainingQuantity : ℚ
  unitCost : ℚ
  currency : String
deriving DecidableEq, Repr

/-- Output of matching one SELL activity (spec section 3, SaleMatchRecord). -/
structure SaleMatchRecord where
  securityId : String
  saleDate : Nat
  quantitySold : ℚ
  proceedsLocal : ℚ
  costBasisLocal : ℚ
  realizedGainLocal : ℚ
  contributions : List (Lot × ℚ)
deriving DecidableEq, Repr

/-- One dividend payment converted to the reporting currency
(spec section 3, DividendRecord). -/
structure DividendRecord where
  securityId : String
  payDate : Nat
  grossAmountLocal : ℚ
  withholdingTaxLocal : ℚ
  netAmountLocal : ℚ
  sourceCurrency : String
deriving DecidableEq, Repr

/-- Errors of the core engine (spec section 7). -/
inductive EngineError where
  | invalidActivity
  | insufficientLots
deriving DecidableEq, Repr

/-- Modelled from the spec: `consume` of the Lot Ledger (section 4.2), whose
implementation lives in the missing `libs/calculations.py`.  Removes
`q` units of security `sec` from the front of the ledger (oldest lot first,
strict FIFO), splitting the oldest lot when it holds more than needed and
fully closing lots that are consumed; lots of other securities are passed
over untouched.  Returns the ordered contribution list and the remaining
ledger, or `insufficientLots` when fewer than `q` open units exist. -/
def consume (sec : String) (q : ℚ) :
    List Lot → Except EngineError (List (Lot × ℚ) × List Lot)
  | [] => if q = 0 then .ok ([], []) else .error .insufficientLots
  | lot :: rest =>
    if q = 0 then .ok ([], lot :: rest)
    else if lot.securityId ≠ sec then
      match consume sec q rest with
      | .ok (contribs, rest2) => .ok (contribs, lot :: rest2)
      | .error e => .error e
    else if lot.remainingQuantity ≤ q then
      match consume sec (q - lot.remainingQuantity) rest with
      | .ok (contribs, rest2) => .ok ((lot, lot.remainingQuantity) :: contribs, rest2)
      | .error e => .error e
    else
      .ok ([(lot, q)],
        { lot with remainingQuantity := lot.remainingQuantity - q } :: rest)

/-- State of the Sale Matching Engine: the open-lot ledger (acquisition
order) and the SaleMatchRecords accumulated so far. -/
structure EngineState where
  ledger : List Lot
  records : List SaleMatchRecord
deriving DecidableEq, Repr

/-- The fresh engine state: empty ledger, no records. -/
def initState : EngineState := ⟨[], []⟩

/-- Modelled from the spec: one step of the Sale Matching Engine
(section 4.3), whose implementation lives in the missing
`libs/calculations.py`.  BUY opens a lot; SELL consumes FIFO and emits one
SaleMatchRecord whose cost basis uses each lot's acquisition-date rate and
whose proceeds use the sale-date rate; zero or negative quantity or price
is rejected as `invalidActivity`; other activity types do not touch the
ledger. -/
def processActivity (rates : Rates) (st : EngineState) (a : Activity) :
    Except EngineError EngineState :=
  match a.activityType with
  | .buy =>
    if a.quantity ≤ 0 ∨ a.unitPrice ≤ 0 then .error .invalidActivity
    else .ok { st with ledger := st.ledger ++
      [⟨a.securityId, a.tradeDate, a.quantity, a.unitPrice, a.currency⟩] }
  | .sell =>
    if a.quantity ≤ 0 ∨ a.unitPrice ≤ 0 then .error .invalidActivity
    else
      match consume a.securityId a.quantity st.ledger with
      | .error e => .error e
      | .ok (contribs, ledger2) =>
        let proceeds := a.quantity * a.unitPrice * rates a.currency a.tradeDate
        let costBasis := (contribs.map
          (fun c => c.2 * c.1.unitCost * rates c.1.currency c.1.acquisitionDate)).sum
        .ok { ledger := ledger2,
              records := st.records ++
                [{ securityId := a.securityId
                   saleDate := a.tradeDate
                   quantitySold := a.quantity
                   proceedsLocal := proceeds
                   costBasisLocal := costBasis
                   realizedGainLocal := proceeds - costBasis
                   contributions := contribs }] }
  | _ => .ok st

/-- Run the Sale Matching Engine from a given state over a trade-date
ordered activity list. -/
def runEngineFrom (rates : Rates) (st : EngineState) :
    List Activity → Except EngineError EngineState
  | [] => .ok st
  | a :: rest =>
    match processActivity rates st a with
    | .ok st2 => runEngineFrom rates st2 rest
    | .error e => .error e

/-- Run the engine from a freshly reset ledger. -/
def runEngine (rates : Rates) (acts : List Activity) :
    Except EngineError EngineState :=
  runEngineFrom rates initState acts

/-- Modelled from the spec: `calculate_sales` of the missing
`libs/calculations.py` — run the engine over one source's statements
and return the SaleMatchRecords. -/
def calculate_sales (rates : Rates) (acts : List Activity) :
    Except EngineError (List SaleMatchRecord) :=
  (runEngine rates acts).map (·.records)

/-- Modelled from the spec: the Win/Loss aggregator (section 4.6) of the
missing `libs/calculations.py`: sum of realized_gain_local, 0 on empty. -/
def winLossTotal (recs : List SaleMatchRecord) : ℚ :=
  (recs.map (·.realizedGainLocal)).sum

/-- Modelled from the spec: `calculate_win_loss` of the missing
`libs/calculations.py`, applied by `main` to the per-source sales mapping:
the total over every source's records. -/
def calculate_win_loss (sales : List (String × List SaleMatchRecord)) : ℚ :=
  (sales.map (fun p => winLossTotal p.2)).sum

/-- Modelled from the spec: `calculate_dividends` of the missing
`libs/calculations.py` (section 4.4).  For each DIVIDEND activity, convert
gross amount and the matching DIVIDEND_TAX withholding (same security and
pay date; 0 when absent) at the pay-date rate and emit one DividendRecord
with net = gross - withholding. -/
def calculate_dividends (rates : Rates) (acts : List Activity) :
    List DividendRecord :=
  acts.filterMap fun a =>
    match a.activityType with
    | .dividend =>
      let r := rates a.currency a.tradeDate
      let tax :=
        match acts.find? (fun b => b.activityType = .dividendTax ∧
            b.securityId = a.securityId ∧ b.tradeDate = a.tradeDate) with
        | some b => b.taxAmount.getD 0
        | none => 0
      let gross := a.grossAmount.getD 0
      some { securityId := a.securityId
             payDate := a.tradeDate
             grossAmountLocal := gross * r
             withholdingTaxLocal := tax * r
             netAmountLocal := gross * r - tax * r
             sourceCurrency := a.currency }
    | _ => none

/-- Modelled from the spec: `get_unsupported_activity_types` of the missing
`libs/utils.py` (section 4.5): the set of activity-type tags, across every
source's statements, outside the recognized set. -/
def get_unsupported_activity_types
    (stmts : List (String × List Activity)) : List String :=
  ((stmts.map Prod.snd).flatten.filterMap fun a =>
    match a.activityType with
    | .other tag => some tag
    | _ => none).dedup

/-- Result of applying a function per data source or to the combined
statements, mirroring the dynamic return shape of `for_each_parser` in
`stocks.py` (a single value when `combine` is true, a name-keyed mapping
otherwise). -/
inductive CombineResult (β : Type) where
  | combined (b : β)
  | perParser (m : List (String × β))
deriving DecidableEq, Repr

/-- `for_each_parser` from `stocks.py` (lines 46-59).  The statements dict
is an insertion-ordered association list; in `main` its values are always
non-empty lists (never None), so the source's `is not None` filter in the
combine branch never drops an entry and is omitted here.  With `combine`
true the function is applied once to the concatenation of every source's
statements, in dictionary iteration order; otherwise it is applied once per
source. -/
def forEachParser {α β : Type} (func : List α → β)
    (statements : List (String × List α)) (combine : Bool) : CombineResult β :=
  if combine then
    .combined (func (statements.foldl (fun acc p => acc ++ p.2) []))
  else
    .perParser (statements.map fun p => (p.1, func p.2))

/-- Observable effects of `main` in `stocks.py`, in program order: file
exports, per-source rate population and calculations, the profit/loss log
line, and the unsupported-types warning. -/
inductive Event where
  | exportStatements
  | populateRates (source : String)
  | calculateDividends (source : String)
  | exportApp8Part41
  | calculateSales (source : String)
  | exportApp5Table2
  | exportXml (source : String)
  | exportApp8Part1
  | logWinLoss (v : ℚ)
  | warnUnsupported (tags : List String)
deriving DecidableEq, Repr

/-- Errors of the driver: `SystemExit(1)` for an empty parse result, or an
uncaught engine error. -/
inductive MainError where
  | exitOne
  | engine (e : EngineError)
deriving DecidableEq, Repr

/-- The outcome of a successful `main` run: the ordered effect trace, the
per-source dividend records, the per-source sales (None when capital-gains
calculation was skipped) and the logged win/loss total (None likewise). -/
structure MainResult where
  trace : List Event
  dividends : List (String × List DividendRecord)
  sales : Option (List (String × List SaleMatchRecord))
  winLoss : Option ℚ
deriving DecidableEq, Repr

/-- Run `calculate_sales` for every source, propagating the first engine
error (an exception in the source aborts `main`). -/
def salesPerSource (rates : Rates) :
    List (String × List Activity) →
      Except EngineError (List (String × List SaleMatchRecord))
  | [] => .ok []
  | p :: rest =>
    match calculate_sales rates p.2 with
    | .error e => .error e
    | .ok recs =>
      match salesPerSource rates rest with
      | .error e => .error e
      | .ok tail => .ok ((p.1, recs) :: tail)

/-- The statement-parsing loop of `main` (`stocks.py` lines 70-76): each
parser's result is checked right after parsing and a falsy result (None or
an empty list) aborts the run with `SystemExit(1)` before anything else
happens. -/
def collectStatements :
    List (String × Option (List Activity)) →
      Except MainError (List (String × List Activity))
  | [] => .ok []
  | (name, r) :: rest =>
    match r with
    | none => .error .exitOne
    | some s =>
      if s = [] then .error .exitOne
      else
        match collectStatements rest with
        | .ok tail => .ok ((name, s) :: tail)
        | .error e => .error e

/-- The pipeline of `main` (`stocks.py` lines 78-125) after the parsing
loop succeeded: export statements.csv, populate exchange rates per source,
calculate and export dividends, then — only when no unsupported activity
type was found — calculate and export sales; finally export the XML and
app8-part1 files, log the win/loss total when sales were calculated, and
warn when unsupported types were found. -/
def pipelineRun (rates : Rates) (stmts : List (String × List Activity)) :
    Except MainError MainResult :=
  let divs := stmts.map fun p => (p.1, calculate_dividends rates p.2)
  let unsupported := get_unsupported_activity_types stmts
  let pre : List Event :=
    [.exportStatements] ++ stmts.map (fun p => .populateRates p.1) ++
      stmts.map (fun p => .calculateDividends p.1) ++ [.exportApp8Part41]
  let post : List Event :=
    divs.map (fun p => .exportXml p.1) ++ [.exportApp8Part1]
  if unsupported = [] then
    match salesPerSource rates stmts with
    | .error e => .error (.engine e)
    | .ok sales =>
      .ok { trace := pre ++ stmts.map (fun p => .calculateSales p.1) ++
              [.exportApp5Table2] ++ post ++
              [.logWinLoss (calculate_win_loss sales)]
            dividends := divs
            sales := some sales
            winLoss := some (calculate_win_loss sales) }
  else
    .ok { trace := pre ++ post ++ [.warnUnsupported unsupported]
          dividends := divs
          sales := none
          winLoss := none }

/-- `main` from `stocks.py`: parse every configured source (aborting with
exit status 1 on a falsy result), then run the pipeline. -/
def mainRun (rates : Rates) (prs : List (String × Option (List Activity))) :
    Except MainError MainResult :=
  match collectStatements prs with
  | .error e => .error e
  | .ok stmts => pipelineRun rates stmts

/-- Total quantity bought so far for a security over an activity list. -/
def totalBought (s : String) (acts : List Activity) : ℚ :=
  (acts.map fun a =>
    if a.activityType = .buy ∧ a.securityId = s then a.quantity else 0).sum

/-- Total quantity sold so far for a security over an activity list. -/
def totalSold (s : String) (acts : List Activity) : ℚ :=
  (acts.map fun a =>
    if a.activityType = .sell ∧ a.securityId = s then a.quantity else 0).sum

/-- Sum of remaining_quantity over a security's open lots. -/
def sumRemaining (s : String) (lots : List Lot) : ℚ :=
  (lots.map fun l => if l.securityId = s then l.remainingQuantity else 0).sum

/-! ### Helper lemmas -/

theorem foldl_append_eq_flatten {α : Type} (l : List (String × List α))
    (init : List α) :
    l.foldl (fun acc p => acc ++ p.2) init = init ++ (l.map Prod.snd).flatten := by
  induction l generalizing init with
  | nil => simp
  | cons hd tl ih => simp [List.foldl_cons, ih, List.append_assoc]

theorem sumRemaining_nil (s : String) : sumRemaining s [] = 0 := rfl

theorem sumRemaining_cons (s : String) (l : Lot) (rest : List Lot) :
    sumRemaining s (l :: rest) =
      (if l.securityId = s then l.remainingQuantity else 0) + sumRemaining s rest := by
  simp [sumRemaining]

theorem sumRemaining_append (s : String) (l1 l2 : List Lot) :
    sumRemaining s (l1 ++ l2) = sumRemaining s l1 + sumRemaining s l2 := by
  simp [sumRemaining]

theorem sumRemaining_nonneg (s : String) (lots : List Lot)
    (hpos : ∀ l ∈ lots, 0 < l.remainingQuantity) : 0 ≤ sumRemaining s lots := by
  unfold sumRemaining
  apply List.sum_nonneg
  intro x hx
  obtain ⟨l, hl, rfl⟩ := List.mem_map.mp hx
  by_cases h : l.securityId = s
  · simp [h]
    exact le_of_lt (hpos l hl)
  · simp [h]

/-! ### Concrete fixtures used by witnesses and scenario claims -/

/-- The rate table of the end-to-end scenario: 1.7 on day 0, 1.8 later. -/
def scenarioRates : Rates := fun _ d => if d = 0 then 17/10 else 9/5

/-- The scenario's BUY: 10 units of X at 100 USD on day 0. -/
def scenarioBuy : Activity :=
  { activityType := .buy, securityId := "X", tradeDate := 0,
    quantity := 10, unitPrice := 100, currency := "USD" }

/-- The scenario's SELL: 10 units of X at 150 USD on day 1. -/
def scenarioSell : Activity :=
  { activityType := .sell, securityId := "X", tradeDate := 1,
    quantity := 10, unitPrice := 150, currency := "USD" }

/-- A trivial all-ones rate table used by witnesses. -/
def unitRates : Rates := fun _ _ => 1

/-! ### Claim theorems -/

/-- Claim C5: for a BUY of 10 units at 100 USD on day 0 (rate 1.7)
followed by a SELL of 10 units at 150 USD on day 1 (rate 1.8), the engine
produces one SaleMatchRecord with cost_basis_local = 1700,
proceeds_local = 2700, realized_gain_local = 1000, and the win/loss
aggregate over the produced records is 1000. -/
theorem end_to_end_scenario :
    calculate_sales scenarioRates [scenarioBuy, scenarioSell] = .ok
      [{ securityId := "X", saleDate := 1, quantitySold := 10,
         proceedsLocal := 2700, costBasisLocal := 1700,
         realizedGainLocal := 1000,
         contributions := [(⟨"X", 0, 10, 100, "USD"⟩, 10)] }] ∧
    (calculate_sales scenarioRates [scenarioBuy, scenarioSell]).map winLossTotal
      = .ok 1000 := by
  constructor <;>
    norm_num [calculate_sales, runEngine, runEngineFrom, processActivity,
      consume, initState, Except.map, winLossTotal, scenarioRates,
      scenarioBuy, scenarioSell]

/-- Claim C7: `for_each_parser` with combine true applies the function
exactly once to the concatenation of all sources' statement lists in
dictionary iteration order and returns its result; with combine false it
applies the function once per source and returns the mapping from each
source name to the function's result on that source's statements. -/
theorem forEachParser_combine_spec {α β : Type} (func : List α → β)
    (statements : List (String × List α)) :
    forEachParser func statements true =
      .combined (func ((statements.map Prod.snd).flatten)) ∧
    forEachParser func statements false =
      .perParser (statements.map fun p => (p.1, func p.2)) := by
  constructor
  · simp [forEachParser, foldl_append_eq_flatten]
  · simp [forEachParser]

/-- Claim C9: the Sale Matching Engine is deterministic — two runs over
the same activity sequence, each from a freshly reset ledger and with the
same rate table, produce identical results (the engine is a pure
function of its input). -/
theorem engine_deterministic (rates : Rates) (acts : List Activity) :
    runEngineFrom rates initState acts = runEngineFrom rates initState acts ∧
    calculate_sales rates acts = calculate_sales rates acts :=
  ⟨rfl, rfl⟩

theorem collectStatements_falsy
    (prs : List (String × Option (List Activity)))
    (h : ∃ p ∈ prs, p.2 = none ∨ p.2 = some []) :
    collectStatements prs = .error .exitOne := by
  induction prs with
  | nil => simp at h
  | cons hd tl ih =>
    obtain ⟨p, hp, hfal⟩ := h
    obtain ⟨name, r⟩ := hd
    rcases List.mem_cons.mp hp with heq | hmem
    · subst heq
      rcases hfal with hnone | hnil
      · simp at hnone
        simp [collectStatements, hnone]
      · simp at hnil
        simp [collectStatements, hnil]
    · cases r with
      | none => simp [collectStatements]
      | some s =>
        by_cases hs : s = []
        · simp [collectStatements, hs]
        · simp [collectStatements, hs, ih ⟨p, hmem, hfal⟩]

/-- Claim C10: if any configured parser yields an empty (or None) statement
list, the whole run aborts with exit status 1: `mainRun` returns the
exit-one error, so no exchange-rate population, dividend or sales
calculation happens and no output is produced for any source. -/
theorem falsy_parse_aborts_run (rates : Rates)
    (prs : List (String × Option (List Activity)))
    (h : ∃ p ∈ prs, p.2 = none ∨ p.2 = some []) :
    mainRun rates prs = .error .exitOne := by
  simp [mainRun, collectStatements_falsy prs h]

/-- Claim C10 witness: a single source whose parse result is None aborts
the run with exit status 1. -/
theorem falsy_parse_aborts_run_witness :
    mainRun unitRates [("revolut", none)] = .error .exitOne :=
  falsy_parse_aborts_run unitRates [("revolut", none)]
    ⟨("revolut", none), by simp, Or.inl rfl⟩

/-- Claim C3: consume removes units strictly from the oldest open lot
first, splitting a lot that holds more than the remaining requested
quantity and fully closing consumed lots, never reordering or skipping;
with two lots of quantity 10 bought at costs C1 then C2, a sell of 15
consumes all 10 units of lot 1 and 5 units of lot 2, and the engine yields
exactly one SaleMatchRecord with exactly two contributions. -/
theorem fifo_two_lot_consumption (rates : Rates) (c1 c2 p : ℚ) (d0 d1 d2 : Nat)
    (hc1 : 0 < c1) (hc2 : 0 < c2) (hp : 0 < p) :
    consume "X" 15 [⟨"X", d0, 10, c1, "USD"⟩, ⟨"X", d1, 10, c2, "USD"⟩] =
      .ok ([(⟨"X", d0, 10, c1, "USD"⟩, 10), (⟨"X", d1, 10, c2, "USD"⟩, 5)],
           [⟨"X", d1, 5, c2, "USD"⟩]) ∧
    calculate_sales rates
      [{ activityType := .buy, securityId := "X", tradeDate := d0,
         quantity := 10, unitPrice := c1, currency := "USD" },
       { activityType := .buy, securityId := "X", tradeDate := d1,
         quantity := 10, unitPrice := c2, currency := "USD" },
       { activityType := .sell, securityId := "X", tradeDate := d2,
         quantity := 15, unitPrice := p, currency := "USD" }] =
      .ok [{ securityId := "X", saleDate := d2, quantitySold := 15,
             proceedsLocal := 15 * p * rates "USD" d2,
             costBasisLocal := 10 * c1 * rates "USD" d0 + 5 * c2 * rates "USD" d1,
             realizedGainLocal := 15 * p * rates "USD" d2 -
               (10 * c1 * rates "USD" d0 + 5 * c2 * rates "USD" d1),
             contributions := [(⟨"X", d0, 10, c1, "USD"⟩, 10),
                               (⟨"X", d1, 10, c2, "USD"⟩, 5)] }] := by
  constructor
  · norm_num [consume]
  · norm_num [calculate_sales, runEngine, runEngineFrom, processActivity,
      consume, initState, Except.map, hc1.not_le, hc2.not_le, hp.not_le]

theorem consume_insufficient (sec : String) (q : ℚ) (lots : List Lot)
    (hpos : ∀ l ∈ lots, 0 < l.remainingQuantity)
    (hover : sumRemaining sec lots < q) :
    consume sec q lots = .error .insufficientLots := by
  induction lots generalizing q with
  | nil =>
    have : q ≠ 0 := by
      intro h
      rw [h] at hover
      simp [sumRemaining_nil] at hover
    simp [consume, this]
  | cons lot rest ih =>
    have hq0 : q ≠ 0 := by
      intro h
      rw [h] at hover
      have := sumRemaining_nonneg sec (lot :: rest) hpos
      linarith
    have hrest : ∀ l ∈ rest, 0 < l.remainingQuantity :=
      fun l hl => hpos l (List.mem_cons_of_mem _ hl)
    rw [sumRemaining_cons] at hover
    by_cases hsec : lot.securityId = sec
    · by_cases hle : lot.remainingQuantity ≤ q
      · have h2 : sumRemaining sec rest < q - lot.remainingQuantity := by
          rw [hsec] at hover
          simp at hover
          linarith
        simp [consume, hq0, hsec, hle, ih _ hrest h2]
      · exfalso
        have h1 : 0 ≤ sumRemaining sec rest := sumRemaining_nonneg sec rest hrest
        rw [hsec] at hover
        simp at hover
        linarith
    · have h2 : sumRemaining sec rest < q := by
        simp [hsec] at hover
        linarith
      simp [consume, hq0, hsec, ih _ hrest h2]

/-- Claim C4: a SELL whose quantity exceeds the total remaining open-lot
quantity held for that security — including any sell when no open lots
remain — makes the engine fail with insufficientLots; the sale is never
clamped, skipped or partially matched. -/
theorem sell_exceeding_holdings_fails (rates : Rates) (st : EngineState)
    (a : Activity)
    (hpos : ∀ l ∈ st.ledger, 0 < l.remainingQuantity)
    (htype : a.activityType = .sell)
    (hq : 0 < a.quantity) (hp : 0 < a.unitPrice)
    (hover : sumRemaining a.securityId st.ledger < a.quantity) :
    processActivity rates st a = .error .insufficientLots := by
  simp [processActivity, htype, hq.not_le, hp.not_le,
    consume_insufficient a.securityId a.quantity st.ledger hpos hover]

/-- Claim C4 witness: a sell of 1 unit against an empty ledger fails with
insufficientLots. -/
theorem sell_exceeding_holdings_fails_witness :
    processActivity unitRates initState
      { activityType := .sell, securityId := "X", tradeDate := 0,
        quantity := 1, unitPrice := 1, currency := "USD" } =
      .error .insufficientLots :=
  sell_exceeding_holdings_fails unitRates initState _
    (by simp [initState]) rfl (by norm_num) (by norm_num)
    (by simp [initState, sumRemaining_nil])

/-- Claim C3 witness: the two-lot FIFO scenario at costs 1 and 2, sale
price 3, under the all-ones rate table. -/
theorem fifo_two_lot_consumption_witness :
    consume "X" 15 [⟨"X", 0, 10, 1, "USD"⟩, ⟨"X", 1, 10, 2, "USD"⟩] =
      .ok ([(⟨"X", 0, 10, 1, "USD"⟩, 10), (⟨"X", 1, 10, 2, "USD"⟩, 5)],
           [⟨"X", 1, 5, 2, "USD"⟩]) ∧
    calculate_sales unitRates
      [{ activityType := .buy, securityId := "X", tradeDate := 0,
         quantity := 10, unitPrice := 1, currency := "USD" },
       { activityType := .buy, securityId := "X", tradeDate := 1,
         quantity := 10, unitPrice := 2, currency := "USD" },
       { activityType := .sell, securityId := "X", tradeDate := 2,
         quantity := 15, unitPrice := 3, currency := "USD" }] =
      .ok [{ securityId := "X", saleDate := 2, quantitySold := 15,
             proceedsLocal := 45, costBasisLocal := 20,
             realizedGainLocal := 25,
             contributions := [(⟨"X", 0, 10, 1, "USD"⟩, 10),
                               (⟨"X", 1, 10, 2, "USD"⟩, 5)] }] := by
  have h := fifo_two_lot_consumption unitRates 1 2 3 0 1 2
    (by norm_num) (by norm_num) (by norm_num)
  norm_num [unitRates] at h
  exact h

theorem consume_sumRemaining (sec : String) (q : ℚ) (lots : List Lot)
    (contribs : List (Lot × ℚ)) (lots2 : List Lot)
    (h : consume sec q lots = .ok (contribs, lots2)) (s : String) :
    sumRemaining s lots2 = sumRemaining s lots - (if s = sec then q else 0) := by
  induction lots generalizing q contribs lots2 with
  | nil =>
    by_cases hq : q = 0
    · subst hq
      simp [consume] at h
      obtain ⟨rfl, rfl⟩ := h
      simp
    · simp [consume, hq] at h
  | cons lot rest ih =>
    by_cases hq : q = 0
    · subst hq
      simp [consume] at h
      obtain ⟨rfl, rfl⟩ := h
      simp
    · by_cases hsec : lot.securityId = sec
      · by_cases hle : lot.remainingQuantity ≤ q
        · simp [consume, hq, hsec, hle] at h
          cases hrec : consume sec (q - lot.remainingQuantity) rest with
          | error e => rw [hrec] at h; simp at h
          | ok pr =>
            obtain ⟨c, r⟩ := pr
            rw [hrec] at h
            simp at h
            obtain ⟨_, rfl⟩ := h
            have hih := ih (q - lot.remainingQuantity) c r hrec
            rw [sumRemaining_cons, hih]
            by_cases hs : s = sec
            · rw [hs, hsec]
              simp
              ring
            · have hne : ¬ lot.securityId = s := by
                rw [hsec]; exact fun hc => hs hc.symm
              have hns : ¬ sec = s := fun hc => hs hc.symm
              simp [hs, hne, hns]
        · simp [consume, hq, hsec, hle] at h
          obtain ⟨rfl, rfl⟩ := h
          rw [sumRemaining_cons, sumRemaining_cons]
          by_cases hs : s = sec
          · have : lot.securityId = s := by rw [hsec, hs]
            simp [hs, this]
            ring
          · have hne : ¬ lot.securityId = s := by
              rw [hsec]; exact fun hc => hs hc.symm
            have hns : ¬ sec = s := fun hc => hs hc.symm
            simp [hs, hne, hns]
      · simp [consume, hq, hsec] at h
        cases hrec : consume sec q rest with
        | error e => rw [hrec] at h; simp at h
        | ok pr =>
          obtain ⟨c, r⟩ := pr
          rw [hrec] at h
          simp at h
          obtain ⟨rfl, rfl⟩ := h
          have hih := ih q c r hrec
          rw [sumRemaining_cons, sumRemaining_cons, hih]
          ring

theorem consume_pos (sec : String) (q : ℚ) (lots : List Lot)
    (contribs : List (Lot × ℚ)) (lots2 : List Lot)
    (h : consume sec q lots = .ok (contribs, lots2))
    (hpos : ∀ l ∈ lots, 0 < l.remainingQuantity) :
    ∀ l ∈ lots2, 0 < l.remainingQuantity := by
  induction lots generalizing q contribs lots2 with
  | nil =>
    by_cases hq : q = 0
    · subst hq
      simp [consume] at h
      obtain ⟨rfl, rfl⟩ := h
      simp
    · simp [consume, hq] at h
  | cons lot rest ih =>
    have hrest : ∀ l ∈ rest, 0 < l.remainingQuantity :=
      fun l hl => hpos l (List.mem_cons_of_mem _ hl)
    by_cases hq : q = 0
    · subst hq
      simp [consume] at h
      obtain ⟨rfl, rfl⟩ := h
      exact hpos
    · by_cases hsec : lot.securityId = sec
      · by_cases hle : lot.remainingQuantity ≤ q
        · simp [consume, hq, hsec, hle] at h
          cases hrec : consume sec (q - lot.remainingQuantity) rest with
          | error e => rw [hrec] at h; simp at h
          | ok pr =>
            obtain ⟨c, r⟩ := pr
            rw [hrec] at h
            simp at h
            obtain ⟨_, rfl⟩ := h
            exact ih _ c r hrec hrest
        · simp [consume, hq, hsec, hle] at h
          obtain ⟨rfl, rfl⟩ := h
          intro l hl
          rcases List.mem_cons.mp hl with rfl | hmem
          · simp
            linarith [not_le.mp hle]
          · exact hrest l hmem
      · simp [consume, hq, hsec] at h
        cases hrec : consume sec q rest with
        | error e => rw [hrec] at h; simp at h
        | ok pr =>
          obtain ⟨c, r⟩ := pr
          rw [hrec] at h
          simp at h
          obtain ⟨rfl, rfl⟩ := h
          intro l hl
          rcases List.mem_cons.mp hl with rfl | hmem
          · exact hpos l (List.mem_cons_self _ _)
          · exact ih q c r hrec hrest l hmem

def netDelta (s : String) (a : Activity) : ℚ :=
  if a.activityType = .buy ∧ a.securityId = s then a.quantity
  else if a.activityType = .sell ∧ a.securityId = s then -a.quantity
  else 0

theorem processActivity_invariant (rates : Rates) (st st2 : EngineState)
    (a : Activity) (h : processActivity rates st a = .ok st2)
    (hpos : ∀ l ∈ st.ledger, 0 < l.remainingQuantity) :
    (∀ l ∈ st2.ledger, 0 < l.remainingQuantity) ∧
    ∀ s, sumRemaining s st2.ledger = sumRemaining s st.ledger + netDelta s a := by
  cases hat : a.activityType with
  | buy =>
    by_cases hbad : a.quantity ≤ 0 ∨ a.unitPrice ≤ 0
    · simp [processActivity, hat, hbad] at h
    · simp [processActivity, hat, hbad] at h
      subst h
      push_neg at hbad
      constructor
      · intro l hl
        simp at hl
        rcases hl with hmem | rfl
        · exact hpos l hmem
        · exact hbad.1
      · intro s
        rw [sumRemaining_append, sumRemaining_cons, sumRemaining_nil]
        simp [netDelta, hat]
  | sell =>
    by_cases hbad : a.quantity ≤ 0 ∨ a.unitPrice ≤ 0
    · simp [processActivity, hat, hbad] at h
    · simp [processActivity, hat, hbad] at h
      cases hrec : consume a.securityId a.quantity st.ledger with
      | error e => rw [hrec] at h; simp at h
      | ok pr =>
        obtain ⟨c, r⟩ := pr
        rw [hrec] at h
        simp at h
        subst h
        constructor
        · exact consume_pos _ _ _ c r hrec hpos
        · intro s
          have := consume_sumRemaining _ _ _ c r hrec s
          simp only [this]
          simp [netDelta, hat]
          by_cases hs : s = a.securityId
          · subst hs
            simp
            ring
          · have hns : ¬ a.securityId = s := fun hc => hs hc.symm
            simp [hs, hns]
  | dividend =>
    simp [processActivity, hat] at h
    subst h
    exact ⟨hpos, fun s => by simp [netDelta, hat]⟩
  | dividendTax =>
    simp [processActivity, hat] at h
    subst h
    exact ⟨hpos, fun s => by simp [netDelta, hat]⟩
  | fee =>
    simp [processActivity, hat] at h
    subst h
    exact ⟨hpos, fun s => by simp [netDelta, hat]⟩
  | other tag =>
    simp [processActivity, hat] at h
    subst h
    exact ⟨hpos, fun s => by simp [netDelta, hat]⟩

theorem totalBought_cons (s : String) (a : Activity) (rest : List Activity) :
    totalBought s (a :: rest) =
      (if a.activityType = .buy ∧ a.securityId = s then a.quantity else 0) +
        totalBought s rest := by
  simp [totalBought]

theorem totalSold_cons (s : String) (a : Activity) (rest : List Activity) :
    totalSold s (a :: rest) =
      (if a.activityType = .sell ∧ a.securityId = s then a.quantity else 0) +
        totalSold s rest := by
  simp [totalSold]

theorem netDelta_eq (s : String) (a : Activity) :
    netDelta s a =
      (if a.activityType = .buy ∧ a.securityId = s then a.quantity else 0) -
      (if a.activityType = .sell ∧ a.securityId = s then a.quantity else 0) := by
  cases hat : a.activityType <;>
    by_cases hsid : a.securityId = s <;>
      simp [netDelta, hat, hsid]

theorem runEngineFrom_invariant (rates : Rates) (acts : List Activity)
    (st st2 : EngineState) (h : runEngineFrom rates st acts = .ok st2)
    (hpos : ∀ l ∈ st.ledger, 0 < l.remainingQuantity) :
    (∀ l ∈ st2.ledger, 0 < l.remainingQuantity) ∧
    ∀ s, sumRemaining s st2.ledger =
      sumRemaining s st.ledger + (totalBought s acts - totalSold s acts) := by
  induction acts generalizing st with
  | nil =>
    simp [runEngineFrom] at h
    subst h
    exact ⟨hpos, fun s => by simp [totalBought, totalSold]⟩
  | cons a rest ih =>
    simp [runEngineFrom] at h
    cases hpa : processActivity rates st a with
    | error e => rw [hpa] at h; simp at h
    | ok stm =>
      rw [hpa] at h
      simp at h
      obtain ⟨hp, hsum⟩ := processActivity_invariant rates st stm a hpa hpos
      obtain ⟨hp2, hsum2⟩ := ih stm h hp
      refine ⟨hp2, fun s => ?_⟩
      rw [hsum2 s, hsum s, totalBought_cons, totalSold_cons, netDelta_eq]
      ring

theorem runEngineFrom_prefix_ok (rates : Rates) (pre suf : List Activity)
    (st st2 : EngineState)
    (h : runEngineFrom rates st (pre ++ suf) = .ok st2) :
    ∃ mid, runEngineFrom rates st pre = .ok mid := by
  induction pre generalizing st with
  | nil => exact ⟨st, rfl⟩
  | cons a rest ih =>
    simp [runEngineFrom] at h ⊢
    cases hpa : processActivity rates st a with
    | error e => rw [hpa] at h; simp at h
    | ok stm =>
      rw [hpa] at h
      simp at h
      exact ih stm h

/-- Claim C2: at every prefix of a BUY/SELL activity sequence processed by
the engine, the sum of remaining_quantity over the security's open lots
equals total quantity bought so far minus total quantity sold so far, and
this net quantity is never negative. -/
theorem lot_conservation (rates : Rates) (acts pre suf : List Activity)
    (st : EngineState) (s : String)
    (h : runEngine rates acts = .ok st) (hsplit : acts = pre ++ suf) :
    ∃ stp, runEngine rates pre = .ok stp ∧
      sumRemaining s stp.ledger = totalBought s pre - totalSold s pre ∧
      0 ≤ sumRemaining s stp.ledger := by
  subst hsplit
  obtain ⟨mid, hmid⟩ := runEngineFrom_prefix_ok rates pre suf initState st h
  obtain ⟨hp, hsum⟩ := runEngineFrom_invariant rates pre initState mid hmid
    (by simp [initState])
  refine ⟨mid, hmid, ?_, sumRemaining_nonneg s mid.ledger hp⟩
  rw [hsum s]
  simp [initState, sumRemaining_nil]

/-- Claim C2 witness: after the single BUY of the scenario, the open-lot
sum for X equals bought minus sold (10) and is nonnegative. -/
theorem lot_conservation_witness :
    ∃ stp, runEngine unitRates [scenarioBuy] = .ok stp ∧
      sumRemaining "X" stp.ledger =
        totalBought "X" [scenarioBuy] - totalSold "X" [scenarioBuy] ∧
      0 ≤ sumRemaining "X" stp.ledger := by
  refine lot_conservation unitRates [scenarioBuy] [scenarioBuy] [] ?_ "X" ?_ (by simp)
  · exact ⟨[⟨"X", 0, 10, 100, "USD"⟩], []⟩
  · norm_num [runEngine, runEngineFrom, processActivity, initState, scenarioBuy]

def scaleRates (k : ℚ) (rates : Rates) : Rates := fun c d => k * rates c d

def scaleRecord (k : ℚ) (r : SaleMatchRecord) : SaleMatchRecord :=
  { r with proceedsLocal := k * r.proceedsLocal,
           costBasisLocal := k * r.costBasisLocal,
           realizedGainLocal := k * r.realizedGainLocal }

theorem sum_map_mul_left {α : Type} (l : List α) (f : α → ℚ) (k : ℚ) :
    (l.map fun x => k * f x).sum = k * (l.map f).sum := by
  induction l with
  | nil => simp
  | cons hd tl ih => simp [ih]; ring

theorem processActivity_scale (rates : Rates) (k : ℚ) (st : EngineState)
    (a : Activity) :
    processActivity (scaleRates k rates)
        ⟨st.ledger, st.records.map (scaleRecord k)⟩ a =
      (processActivity rates st a).map
        (fun st2 => ⟨st2.ledger, st2.records.map (scaleRecord k)⟩) := by
  cases hat : a.activityType with
  | buy =>
    by_cases hbad : a.quantity ≤ 0 ∨ a.unitPrice ≤ 0 <;>
      simp [processActivity, hat, hbad, Except.map]
  | sell =>
    by_cases hbad : a.quantity ≤ 0 ∨ a.unitPrice ≤ 0
    · simp [processActivity, hat, hbad, Except.map]
    · simp only [processActivity, hat, if_neg hbad]
      cases hrec : consume a.securityId a.quantity st.ledger with
      | error e => simp [hrec, Except.map]
      | ok pr =>
        obtain ⟨c, r⟩ := pr
        have hmap : (c.map fun x =>
            x.2 * x.1.unitCost * (k * rates x.1.currency x.1.acquisitionDate)) =
            c.map fun x =>
              k * (x.2 * x.1.unitCost * rates x.1.currency x.1.acquisitionDate) := by
          apply List.map_congr_left
          intro x _
          ring
        simp [hrec, Except.map, scaleRecord, scaleRates, hmap, sum_map_mul_left]
        refine ⟨by ring, by ring⟩
  | dividend => simp [processActivity, hat, Except.map]
  | dividendTax => simp [processActivity, hat, Except.map]
  | fee => simp [processActivity, hat, Except.map]
  | other tag => simp [processActivity, hat, Except.map]

theorem runEngineFrom_scale (rates : Rates) (k : ℚ) (acts : List Activity)
    (st : EngineState) :
    runEngineFrom (scaleRates k rates)
        ⟨st.ledger, st.records.map (scaleRecord k)⟩ acts =
      (runEngineFrom rates st acts).map
        (fun st2 => ⟨st2.ledger, st2.records.map (scaleRecord k)⟩) := by
  induction acts generalizing st with
  | nil => simp [runEngineFrom, Except.map]
  | cons a rest ih =>
    simp only [runEngineFrom]
    rw [processActivity_scale]
    cases hpa : processActivity rates st a with
    | error e => simp [Except.map]
    | ok stm => simpa [Except.map] using ih stm

/-- Claim C8: multiplying every exchange rate by one positive constant k
multiplies every realized_gain_local by k (records otherwise identical)
and multiplies the aggregated total by k, so no gain, loss or total ever
changes sign. -/
theorem uniform_rate_scaling (rates : Rates) (k : ℚ) (acts : List Activity)
    (recs : List SaleMatchRecord) (hk : 0 < k)
    (h : calculate_sales rates acts = .ok recs) :
    calculate_sales (scaleRates k rates) acts = .ok (recs.map (scaleRecord k)) ∧
    winLossTotal (recs.map (scaleRecord k)) = k * winLossTotal recs ∧
    (∀ r ∈ recs, (0 < (scaleRecord k r).realizedGainLocal ↔
        0 < r.realizedGainLocal) ∧
      ((scaleRecord k r).realizedGainLocal < 0 ↔ r.realizedGainLocal < 0)) ∧
    (0 < winLossTotal (recs.map (scaleRecord k)) ↔ 0 < winLossTotal recs) ∧
    (winLossTotal (recs.map (scaleRecord k)) < 0 ↔ winLossTotal recs < 0) := by
  have hscale : winLossTotal (recs.map (scaleRecord k)) = k * winLossTotal recs := by
    unfold winLossTotal
    rw [List.map_map]
    have : ((fun r => r.realizedGainLocal) ∘ scaleRecord k) =
        fun r => k * r.realizedGainLocal := by
      funext r
      simp [scaleRecord]
    rw [this, sum_map_mul_left]
  refine ⟨?_, hscale, ?_, ?_, ?_⟩
  · unfold calculate_sales runEngine at h ⊢
    cases hrun : runEngineFrom rates initState acts with
    | error e => rw [hrun] at h; simp [Except.map] at h
    | ok st =>
      rw [hrun] at h
      simp [Except.map] at h
      subst h
      have := runEngineFrom_scale rates k acts initState
      simp only [initState, List.map_nil] at this
      rw [show (⟨[], []⟩ : EngineState) = initState from rfl] at this
      rw [this, hrun]
      simp [Except.map]
  · intro r _
    constructor
    · constructor
      · intro hpos2
        simp [scaleRecord] at hpos2
        nlinarith
      · intro hpos2
        simp [scaleRecord]
        nlinarith
    · constructor
      · intro hneg2
        simp [scaleRecord] at hneg2
        nlinarith
      · intro hneg2
        simp [scaleRecord]
        nlinarith
  · rw [hscale]
    constructor
    · intro h2; nlinarith
    · intro h2; nlinarith
  · rw [hscale]
    constructor
    · intro h2; nlinarith
    · intro h2; nlinarith

/-- The SaleMatchRecord produced by the end-to-end scenario. -/
def scenarioRecord : SaleMatchRecord :=
  { securityId := "X", saleDate := 1, quantitySold := 10,
    proceedsLocal := 2700, costBasisLocal := 1700, realizedGainLocal := 1000,
    contributions := [(⟨"X", 0, 10, 100, "USD"⟩, 10)] }

/-- Claim C8 witness: scaling the scenario's rate table by 2 doubles the
realized gain and the total, preserving their signs. -/
theorem uniform_rate_scaling_witness :
    calculate_sales (scaleRates 2 scenarioRates) [scenarioBuy, scenarioSell] =
      .ok ([scenarioRecord].map (scaleRecord 2)) ∧
    winLossTotal ([scenarioRecord].map (scaleRecord 2)) =
      2 * winLossTotal [scenarioRecord] ∧
    (∀ r ∈ [scenarioRecord],
      (0 < (scaleRecord 2 r).realizedGainLocal ↔ 0 < r.realizedGainLocal) ∧
      ((scaleRecord 2 r).realizedGainLocal < 0 ↔ r.realizedGainLocal < 0)) ∧
    (0 < winLossTotal ([scenarioRecord].map (scaleRecord 2)) ↔
      0 < winLossTotal [scenarioRecord]) ∧
    (winLossTotal ([scenarioRecord].map (scaleRecord 2)) < 0 ↔
      winLossTotal [scenarioRecord] < 0) := by
  apply uniform_rate_scaling scenarioRates 2 [scenarioBuy, scenarioSell] _
    (by norm_num)
  norm_num [calculate_sales, runEngine, runEngineFrom, processActivity,
    consume, initState, Except.map, scenarioRates, scenarioBuy, scenarioSell,
    scenarioRecord]

def isPopulateEvent : Event → Bool
  | .populateRates _ => true
  | _ => false

theorem filter_populate_map_populate {α : Type} (f : α → String) (l : List α) :
    (l.map fun x => Event.populateRates (f x)).filter isPopulateEvent =
      l.map fun x => Event.populateRates (f x) := by
  induction l with
  | nil => rfl
  | cons hd tl ih => simp [List.filter_cons, isPopulateEvent, ih]

/-- Claim C6: the exchange-rate population step runs exactly once per data
source and completes before any sale-matching calculation begins: the
trace's populate events are exactly one per source, and the trace splits
into a part with no sale calculation followed by a part with no rate
population. -/
theorem rates_populated_before_sales (rates : Rates)
    (stmts : List (String × List Activity)) (res : MainResult)
    (h : pipelineRun rates stmts = .ok res) :
    res.trace.filter isPopulateEvent =
      stmts.map (fun p => Event.populateRates p.1) ∧
    ∃ l1 l2, res.trace = l1 ++ l2 ∧
      (∀ s, Event.calculateSales s ∉ l1) ∧
      (∀ s, Event.populateRates s ∉ l2) := by
  unfold pipelineRun at h
  by_cases hu : get_unsupported_activity_types stmts = []
  · rw [if_pos hu] at h
    cases hsp : salesPerSource rates stmts with
    | error e => rw [hsp] at h; simp at h
    | ok sales =>
      rw [hsp] at h
      simp at h
      subst h
      constructor
      · simp [List.filter_append, List.filter_cons, isPopulateEvent,
          filter_populate_map_populate]
        refine ⟨?_, ?_, ?_⟩ <;> (intro a x x1 _ hax; subst hax; rfl)
      · refine ⟨[Event.exportStatements] ++
          stmts.map (fun p => Event.populateRates p.1) ++
          stmts.map (fun p => Event.calculateDividends p.1) ++
          [Event.exportApp8Part41],
          stmts.map (fun p => Event.calculateSales p.1) ++
          [Event.exportApp5Table2] ++
          (stmts.map fun p =>
            (p.1, calculate_dividends rates p.2)).map (fun p => Event.exportXml p.1) ++
          [Event.exportApp8Part1,
           Event.logWinLoss (calculate_win_loss sales)],
          by simp, ?_, ?_⟩
        · intro s
          simp
        · intro s
          simp
  · rw [if_neg hu] at h
    simp at h
    subst h
    constructor
    · simp [List.filter_append, List.filter_cons, isPopulateEvent,
        filter_populate_map_populate]
      refine ⟨?_, ?_⟩ <;> (intro a x x1 _ hax; subst hax; rfl)
    · refine ⟨[Event.exportStatements] ++
        stmts.map (fun p => Event.populateRates p.1) ++
        stmts.map (fun p => Event.calculateDividends p.1) ++
        [Event.exportApp8Part41],
        (stmts.map fun p =>
          (p.1, calculate_dividends rates p.2)).map (fun p => Event.exportXml p.1) ++
        [Event.exportApp8Part1,
         Event.warnUnsupported (get_unsupported_activity_types stmts)],
        by simp, ?_, ?_⟩
      · intro s
        simp
      · intro s
        simp

/-- Claim C1: when the set of unsupported activity types is non-empty the
pipeline produces no sales and no win/loss figure and never runs the sales
calculation, while dividends are still computed and exported and a warning
listing exactly the unsupported types is emitted; when the set is empty,
sales are calculated and the win/loss total is computed and logged. -/
theorem guard_downgrades_to_dividends_only (rates : Rates)
    (stmts : List (String × List Activity)) (res : MainResult)
    (h : pipelineRun rates stmts = .ok res) :
    (get_unsupported_activity_types stmts ≠ [] →
      res.sales = none ∧ res.winLoss = none ∧
      (∀ s, Event.calculateSales s ∉ res.trace) ∧
      res.dividends = stmts.map (fun p => (p.1, calculate_dividends rates p.2)) ∧
      Event.exportApp8Part41 ∈ res.trace ∧
      Event.warnUnsupported (get_unsupported_activity_types stmts) ∈ res.trace) ∧
    (get_unsupported_activity_types stmts = [] →
      ∃ sales, salesPerSource rates stmts = .ok sales ∧
        res.sales = some sales ∧
        res.winLoss = some (calculate_win_loss sales) ∧
        Event.logWinLoss (calculate_win_loss sales) ∈ res.trace ∧
        res.dividends = stmts.map (fun p => (p.1, calculate_dividends rates p.2))) := by
  unfold pipelineRun at h
  by_cases hu : get_unsupported_activity_types stmts = []
  · rw [if_pos hu] at h
    cases hsp : salesPerSource rates stmts with
    | error e => rw [hsp] at h; simp at h
    | ok sales =>
      rw [hsp] at h
      simp at h
      subst h
      exact ⟨fun hne => absurd hu hne, fun _ =>
        ⟨sales, rfl, rfl, rfl, by simp, rfl⟩⟩
  · rw [if_neg hu] at h
    simp at h
    subst h
    refine ⟨fun _ => ⟨rfl, rfl, ?_, rfl, by simp, by simp⟩,
      fun heq => absurd heq hu⟩
    intro s
    simp

/-- An unsupported (OTHER-typed) activity used by the guard witness. -/
def actOther : Activity :=
  { activityType := .other "SSP", securityId := "X", tradeDate := 0,
    quantity := 1, unitPrice := 1, currency := "USD" }

/-- One data source holding only the scenario BUY. -/
def sourceBuyOnly : List (String × List Activity) := [("revolut", [scenarioBuy])]

/-- One data source holding a valid BUY alongside an OTHER-typed activity. -/
def sourceWithOther : List (String × List Activity) :=
  [("revolut", [scenarioBuy, actOther])]

/-- The pipeline outcome on the BUY-only source. -/
def resultBuyOnly : MainResult :=
  { trace := [.exportStatements, .populateRates "revolut",
      .calculateDividends "revolut", .exportApp8Part41,
      .calculateSales "revolut", .exportApp5Table2, .exportXml "revolut",
      .exportApp8Part1, .logWinLoss 0],
    dividends := [("revolut", [])],
    sales := some [("revolut", [])],
    winLoss := some 0 }

/-- The pipeline outcome on the source containing an OTHER-typed activity. -/
def resultWithOther : MainResult :=
  { trace := [.exportStatements, .populateRates "revolut",
      .calculateDividends "revolut", .exportApp8Part41, .exportXml "revolut",
      .exportApp8Part1, .warnUnsupported ["SSP"]],
    dividends := [("revolut", [])],
    sales := none,
    winLoss := none }

theorem pipelineRun_buyOnly :
    pipelineRun unitRates sourceBuyOnly = .ok resultBuyOnly := by
  have hg : get_unsupported_activity_types sourceBuyOnly = [] := by decide
  simp only [sourceBuyOnly, scenarioBuy] at hg
  norm_num [pipelineRun, hg, calculate_dividends,
    salesPerSource, calculate_sales, runEngine, runEngineFrom, processActivity,
    initState, Except.map, calculate_win_loss, winLossTotal,
    sourceBuyOnly, scenarioBuy, unitRates, resultBuyOnly]

theorem pipelineRun_withOther :
    pipelineRun unitRates sourceWithOther = .ok resultWithOther := by
  have hg : get_unsupported_activity_types sourceWithOther = ["SSP"] := by decide
  simp only [sourceWithOther, scenarioBuy, actOther] at hg
  norm_num [pipelineRun, hg, calculate_dividends,
    sourceWithOther, scenarioBuy, actOther, unitRates, resultWithOther]

/-- Claim C1 witness: on a source holding a valid BUY and one OTHER-typed
activity, the guard is non-empty, so the pipeline yields dividends-only
output with the warning; the sales branch implication holds vacuously. -/
theorem guard_downgrades_to_dividends_only_witness :
    (get_unsupported_activity_types sourceWithOther ≠ [] →
      resultWithOther.sales = none ∧ resultWithOther.winLoss = none ∧
      (∀ s, Event.calculateSales s ∉ resultWithOther.trace) ∧
      resultWithOther.dividends =
        sourceWithOther.map (fun p => (p.1, calculate_dividends unitRates p.2)) ∧
      Event.exportApp8Part41 ∈ resultWithOther.trace ∧
      Event.warnUnsupported (get_unsupported_activity_types sourceWithOther) ∈
        resultWithOther.trace) ∧
    (get_unsupported_activity_types sourceWithOther = [] →
      ∃ sales, salesPerSource unitRates sourceWithOther = .ok sales ∧
        resultWithOther.sales = some sales ∧
        resultWithOther.winLoss = some (calculate_win_loss sales) ∧
        Event.logWinLoss (calculate_win_loss sales) ∈ resultWithOther.trace ∧
        resultWithOther.dividends =
          sourceWithOther.map (fun p => (p.1, calculate_dividends unitRates p.2))) :=
  guard_downgrades_to_dividends_only unitRates sourceWithOther resultWithOther
    pipelineRun_withOther

/-- Claim C6 witness: on the BUY-only source the trace populates rates for
the one source exactly once, before the sales calculation. -/
theorem rates_populated_before_sales_witness :
    resultBuyOnly.trace.filter isPopulateEvent =
      sourceBuyOnly.map (fun p => Event.populateRates p.1) ∧
    ∃ l1 l2, resultBuyOnly.trace = l1 ++ l2 ∧
      (∀ s, Event.calculateSales s ∉ l1) ∧
      (∀ s, Event.populateRates s ∉ l2) :=
  rates_populated_before_sales unitRates sourceBuyOnly resultBuyOnly
    pipelineRun_buyOnly
